import Mathlib

/-!
# Verification of the repository-insight-tracker dataset manager

Shallow embedding of `src/load.js`: the versioned time-series dataset
manager that reads a serialized insights dataset from a branch, upserts
one record per calendar date, backfills missing history, and commits the
result back.  JavaScript strings are modelled as `List Char`; JavaScript
values produced by `JSON.parse` are modelled by the inductive `JsVal`;
fallible steps return `Except`; the `undefined` value is `Option.none`.

The file is organised as definitions first (the embedding), then the
theorems about them.
-/

/-! ## Basic string machinery -/

/-- JavaScript strings, modelled as lists of characters. -/
abbrev Str := List Char

/-- Whitespace characters relevant to `String.prototype.trim` and JSON
(the inputs in play only contain these four). -/
def isWsChar (c : Char) : Bool :=
  c == ' ' || c == '\n' || c == '\t' || c == '\r'

/-- A run of `n` spaces, used by the pretty printer's indentation. -/
def spaces : Nat → Str
  | 0 => []
  | n + 1 => ' ' :: spaces n

/-- Decimal digit character for `d < 10` (models number-to-string). -/
def digitChar (d : Nat) : Char := Char.ofNat (48 + d)

/-- Decimal digits of `n`, most significant first, with an iteration
budget (the budget `n + 1` always suffices).  Models the JavaScript
decimal rendering of a non-negative integer. -/
def natCharsAux : Nat → Nat → Str
  | 0, _ => []
  | fuel + 1, n =>
    if n < 10 then [digitChar n]
    else natCharsAux fuel (n / 10) ++ [digitChar (n % 10)]

/-- Decimal rendering of a natural number. -/
def natChars (n : Nat) : Str := natCharsAux (n + 1) n

/-- Decimal rendering of an integer (minus sign for negatives), as
`JSON.stringify` renders integral numbers. -/
def intChars (n : Int) : Str :=
  if n < 0 then '-' :: natChars n.natAbs else natChars n.natAbs

/-- Model of `String.prototype.startsWith`: `strStarts pre s` is
`s.startsWith(pre)`. -/
def strStarts : Str → Str → Bool
  | [], _ => true
  | _ :: _, [] => false
  | p :: ps, c :: cs => p == c && strStarts ps cs

/-! ## The data model -/

/-- One day of metrics: the record shape written by `generateFileContent`
(`newEntry` in `src/load.js`). -/
structure Record where
  date : Str
  stargazers : Nat
  commits : Nat
  contributors : Nat
  traffic_views : Nat
  traffic_uniques : Nat
  clones_count : Nat
  clones_uniques : Nat
deriving Repr, DecidableEq

/-- The fixed CSV header written by `getInsightsFile` and
`generateFileContent` (`csvHeaders.join(",")`). -/
def csvHeaderStr : Str :=
  ("date,stargazers,commits,contributors,traffic_views,traffic_uniques,clones_count,clones_uniques".data)

/-- One CSV data line: the record's fields joined by commas in header
order (`csvHeaders.map((header) => newEntry[header]).join(",")`). -/
def csvLine (r : Record) : Str :=
  r.date ++ ',' :: natChars r.stargazers ++ ',' :: natChars r.commits ++
    ',' :: natChars r.contributors ++ ',' :: natChars r.traffic_views ++
    ',' :: natChars r.traffic_uniques ++ ',' :: natChars r.clones_count ++
    ',' :: natChars r.clones_uniques

/-- Calendar dates as the system writes them
(`toISOString().split("T")[0]`): exactly `YYYY-MM-DD`. -/
def isIsoDate : Str → Bool
  | [y1, y2, y3, y4, s1, m1, m2, s2, d1, d2] =>
    y1.isDigit && y2.isDigit && y3.isDigit && y4.isDigit && s1 == '-' &&
      m1.isDigit && m2.isDigit && s2 == '-' && d1.isDigit && d2.isDigit
  | _ => false

/-! ## The insert-or-replace step -/

/-- Model of `Array.prototype.findIndex`: index of the first element
satisfying `p`, threading the running index (`none` models `-1`). -/
def jsFindIndexAux (p : α → Bool) : List α → Nat → Option Nat
  | [], _ => none
  | a :: l, i => if p a then some i else jsFindIndexAux p l (i + 1)

/-- Index of the first element satisfying `p`, if any. -/
def jsFindIndex (p : α → Bool) (l : List α) : Option Nat :=
  jsFindIndexAux p l 0

/-- The insert-or-replace step shared by both formats of
`generateFileContent`: replace the first element matching `p` in place,
or push `x` at the end when none matches. -/
def upsertBy (p : α → Bool) (x : α) (l : List α) : List α :=
  match jsFindIndex p l with
  | some i => l.set i x
  | none => l ++ [x]

/-- JavaScript values as produced by `JSON.parse`: the dataset lives in
memory as one of these (`undefined` never appears inside parsed data). -/
inductive JsVal where
  | nullv : JsVal
  | boolv (b : Bool) : JsVal
  | num (n : Int) : JsVal
  | str (s : Str) : JsVal
  | arr (xs : List JsVal) : JsVal
  | obj (kvs : List (Str × JsVal)) : JsVal
deriving Repr

/-- The `newEntry` object literal of `generateFileContent`, as the JS
engine builds it (keys in source order). -/
def recordToJs (r : Record) : JsVal :=
  .obj [(("date".data), .str r.date),
    (("stargazers".data), .num r.stargazers),
    (("commits".data), .num r.commits),
    (("contributors".data), .num r.contributors),
    (("traffic_views".data), .num r.traffic_views),
    (("traffic_uniques".data), .num r.traffic_uniques),
    (("clones_count".data), .num r.clones_count),
    (("clones_uniques".data), .num r.clones_uniques)]

/-- The JSON-branch predicate `entry.date === newEntry.date` of
`generateFileContent`.  Property access on a non-object yields
`undefined`, which never strict-equals a string; `null` entries, on which
the access would throw, cannot occur in a well-formed dataset and are
treated as non-matching. -/
def entryDateIs (d : Str) (e : JsVal) : Bool :=
  match e with
  | .obj kvs =>
    match kvs.find? (fun kv => kv.1 == ("date".data)) with
    | some (_, JsVal.str s) => s == d
    | _ => false
  | _ => false

/-- The JSON insert-or-replace step of `generateFileContent`: find the
entry with the new record's date, replace it in place, else push. -/
def jsUpsertEntries (entries : List JsVal) (r : Record) : List JsVal :=
  upsertBy (entryDateIs r.date) (recordToJs r) entries

/-- The CSV insert-or-replace step of `generateFileContent`: find the
line starting with the new record's date, replace it, else push the new
comma-joined line. -/
def csvUpsert (lines : List Str) (r : Record) : List Str :=
  upsertBy (fun line => strStarts r.date line) (csvLine r) lines

/-- The insert-or-replace operation described by the specification's
TimeSeriesUpserter (§4.3), stated on the data model: both format-level
steps refine it.  Modelled from the spec: replace the entry whose date
equals the record's, else append. -/
def upsertRecord (recs : List Record) (r : Record) : List Record :=
  upsertBy (fun e => e.date == r.date) r recs

/-- No two records of the dataset share a date. -/
def distinctDates (recs : List Record) : Prop :=
  recs.Pairwise (fun a b => a.date ≠ b.date)

/-- All records of the dataset carry well-formed calendar dates. -/
def isoDataset (recs : List Record) : Prop :=
  ∀ a ∈ recs, isIsoDate a.date = true

/-! ## CSV text: split, blank filtering, join -/

/-- Model of `content.split("\n")`: split at every newline, keeping empty
segments (JavaScript semantics). -/
def splitNl : Str → List Str
  | [] => [[]]
  | c :: cs =>
    if c == '\n' then [] :: splitNl cs
    else
      match splitNl cs with
      | l :: ls => (c :: l) :: ls
      | [] => [[c]]

/-- Model of `line.trim() === ""`: the line is entirely whitespace. -/
def isBlankLine (l : Str) : Bool := l.all isWsChar

/-- The line list both `getInsightsFile` and `generateFileContent` work
on: `content.split("\n").filter((line) => line.trim() !== "")`. -/
def csvLinesOf (content : Str) : List Str :=
  (splitNl content).filter (fun l => !isBlankLine l)

/-- Model of `lines.join("\n")`. -/
def joinNl : List Str → Str
  | [] => []
  | [l] => l
  | l :: ls => l ++ '\n' :: joinNl ls

/-! ## The JSON codec

The host's `JSON.parse` and `JSON.stringify(·, null, 2)` are external
library functions; they are modelled here on the JSON subset this system
reads and writes: integral numbers and escape-free strings.  The parser
is whitespace-tolerant and rejects what the host rejects on that subset.
-/

/-- Drop leading JSON whitespace. -/
def skipWs : Str → Str
  | [] => []
  | c :: cs => if isWsChar c then skipWs cs else c :: cs

/-- Parse a string body after the opening quote, up to the closing quote
(escape sequences do not occur in the data in play and are rejected). -/
def parseStrBody : Str → Option (Str × Str)
  | [] => none
  | c :: cs =>
    if c == '"' then some ([], cs)
    else if c == '\\' then none
    else
      match parseStrBody cs with
      | some (s, r) => some (c :: s, r)
      | none => none

/-- Accumulate decimal digits. -/
def parseNatAux : Str → Nat → Nat × Str
  | [], acc => (acc, [])
  | c :: cs, acc =>
    if c.isDigit then parseNatAux cs (acc * 10 + (c.toNat - 48))
    else (acc, c :: cs)

/-- Does the input begin with a decimal digit? -/
def headIsDigit : Str → Bool
  | [] => false
  | c :: _ => c.isDigit

/-- Parse an integral JSON number (optional minus sign, then digits). -/
def parseNum : Str → Option (Int × Str)
  | [] => none
  | c :: cs =>
    if c == '-' then
      if headIsDigit cs then
        some (-((parseNatAux cs 0).1 : Int), (parseNatAux cs 0).2)
      else none
    else if c.isDigit then
      some (((parseNatAux (c :: cs) 0).1 : Int), (parseNatAux (c :: cs) 0).2)
    else none

mutual

/-- Parse one JSON value; the budget bounds the recursion depth and the
number of array elements and object members (one unit per step), and
`parseJson` passes a budget that covers any input of that length. -/
def parseVal : Nat → Str → Option (JsVal × Str)
  | 0, _ => none
  | fuel + 1, cs =>
    match skipWs cs with
    | [] => none
    | c :: cs1 =>
      if c == '"' then
        match parseStrBody cs1 with
        | some (s, r) => some (.str s, r)
        | none => none
      else if c == '[' then
        match skipWs cs1 with
        | [] => none
        | d :: cs2 =>
          if d == ']' then some (.arr [], cs2)
          else
            match parseElems fuel (d :: cs2) with
            | some (xs, r) => some (.arr xs, r)
            | none => none
      else if c == '{' then
        match skipWs cs1 with
        | [] => none
        | d :: cs2 =>
          if d == '}' then some (.obj [], cs2)
          else
            match parseMembers fuel (d :: cs2) with
            | some (kvs, r) => some (.obj kvs, r)
            | none => none
      else if c == 'n' then
        if strStarts (("ull".data)) cs1 then some (.nullv, cs1.drop 3) else none
      else if c == 't' then
        if strStarts (("rue".data)) cs1 then some (.boolv true, cs1.drop 3)
        else none
      else if c == 'f' then
        if strStarts (("alse".data)) cs1 then some (.boolv false, cs1.drop 4)
        else none
      else
        match parseNum (c :: cs1) with
        | some (n, r) => some (.num n, r)
        | none => none

/-- Parse the elements of a non-empty array up to the closing bracket. -/
def parseElems : Nat → Str → Option (List JsVal × Str)
  | 0, _ => none
  | fuel + 1, cs =>
    match parseVal fuel cs with
    | some (v, r) =>
      match skipWs r with
      | [] => none
      | d :: r1 =>
        if d == ',' then
          match parseElems fuel r1 with
          | some (vs, r2) => some (v :: vs, r2)
          | none => none
        else if d == ']' then some ([v], r1)
        else none
    | none => none

/-- Parse the members of a non-empty object up to the closing brace. -/
def parseMembers : Nat → Str → Option (List (Str × JsVal) × Str)
  | 0, _ => none
  | fuel + 1, cs =>
    match skipWs cs with
    | [] => none
    | c :: cs1 =>
      if c == '"' then
        match parseStrBody cs1 with
        | some (k, r) =>
          match skipWs r with
          | [] => none
          | d :: r1 =>
            if d == ':' then
              match parseVal fuel r1 with
              | some (v, r2) =>
                match skipWs r2 with
                | [] => none
                | e :: r3 =>
                  if e == ',' then
                    match parseMembers fuel r3 with
                    | some (kvs, r4) => some ((k, v) :: kvs, r4)
                    | none => none
                  else if e == '}' then some ([(k, v)], r3)
                  else none
              | none => none
            else none
        | none => none
      else none

end

/-- Model of `JSON.parse`: one value, then only trailing whitespace. -/
def parseJson (cs : Str) : Option JsVal :=
  match parseVal (cs.length + 1) cs with
  | some (v, r) =>
    match skipWs r with
    | [] => some v
    | _ => none
  | none => none

mutual

/-- Structural size of a value, used as the serializer's budget. -/
def jsSizeV : JsVal → Nat
  | .nullv => 1
  | .boolv _ => 1
  | .num _ => 1
  | .str _ => 1
  | .arr xs => 1 + jsSizeArr xs
  | .obj kvs => 1 + jsSizeObj kvs

/-- Structural size of an element list. -/
def jsSizeArr : List JsVal → Nat
  | [] => 1
  | x :: xs => 1 + jsSizeV x + jsSizeArr xs

/-- Structural size of a member list. -/
def jsSizeObj : List (Str × JsVal) → Nat
  | [] => 1
  | kv :: kvs => 1 + jsSizeV kv.2 + jsSizeObj kvs

end

mutual

/-- Serialize one JSON value in the `JSON.stringify(v, null, 2)` layout,
at enclosing indentation `ind`; the budget bounds the recursion (one unit
per step), and `stringifyJson` passes a sufficient one. -/
def stringifyV : Nat → Nat → JsVal → Str
  | 0, _, _ => []
  | fuel + 1, ind, v =>
    match v with
    | .nullv => ("null".data)
    | .boolv true => ("true".data)
    | .boolv false => ("false".data)
    | .num n => intChars n
    | .str s => '"' :: s ++ ['"']
    | .arr [] => ['[', ']']
    | .arr (x :: xs) =>
      '[' :: '\n' :: (spaces (ind + 2) ++ stringifyV fuel (ind + 2) x ++
        stringifyElems fuel (ind + 2) xs ++ '\n' :: spaces ind ++ [']'])
    | .obj [] => ['{', '}']
    | .obj (kv :: kvs) =>
      '{' :: '\n' :: (spaces (ind + 2) ++ '"' :: kv.1 ++ '"' :: ':' :: ' ' ::
        stringifyV fuel (ind + 2) kv.2 ++ stringifyMembers fuel (ind + 2) kvs ++
        '\n' :: spaces ind ++ ['}'])

/-- Serialize the remaining elements of a non-empty array. -/
def stringifyElems : Nat → Nat → List JsVal → Str
  | 0, _, _ => []
  | _ + 1, _, [] => []
  | fuel + 1, ind, x :: xs =>
    ',' :: '\n' :: (spaces ind ++ stringifyV fuel ind x ++ stringifyElems fuel ind xs)

/-- Serialize the remaining members of a non-empty object. -/
def stringifyMembers : Nat → Nat → List (Str × JsVal) → Str
  | 0, _, _ => []
  | _ + 1, _, [] => []
  | fuel + 1, ind, kv :: kvs =>
    ',' :: '\n' :: (spaces ind ++ '"' :: kv.1 ++ '"' :: ':' :: ' ' ::
      stringifyV fuel ind kv.2 ++ stringifyMembers fuel ind kvs)

end

/-- Model of `JSON.stringify(v, null, 2)`. -/
def stringifyJson (v : JsVal) : Str := stringifyV (jsSizeV v) 0 v

/-! ## The printed text of a dataset, spelt out

These abbreviations name the exact text the serializer produces for a
dataset, so the round-trip proof can work on explicit strings. -/

/-- The printed form of an object key: `"key": `. -/
def keyText (k : Str) : Str := '"' :: k ++ '"' :: ':' :: ' ' :: []

/-- The separator between printed members or elements at indentation
`ind`: a comma, a newline, and the indentation. -/
def sepText (ind : Nat) : Str := ',' :: '\n' :: spaces ind

/-- The printed form of one record object at enclosing indentation
`ind`. -/
def recordObjText (ind : Nat) (r : Record) : Str :=
  '{' :: '\n' :: spaces (ind + 2)
    ++ keyText ("date".data) ++ '"' :: r.date ++ ['"']
    ++ sepText (ind + 2) ++ keyText ("stargazers".data) ++ natChars r.stargazers
    ++ sepText (ind + 2) ++ keyText ("commits".data) ++ natChars r.commits
    ++ sepText (ind + 2) ++ keyText ("contributors".data)
      ++ natChars r.contributors
    ++ sepText (ind + 2) ++ keyText ("traffic_views".data)
      ++ natChars r.traffic_views
    ++ sepText (ind + 2) ++ keyText ("traffic_uniques".data)
      ++ natChars r.traffic_uniques
    ++ sepText (ind + 2) ++ keyText ("clones_count".data)
      ++ natChars r.clones_count
    ++ sepText (ind + 2) ++ keyText ("clones_uniques".data)
      ++ natChars r.clones_uniques
    ++ '\n' :: spaces ind ++ ['}']

/-- The printed forms of the dataset's records after the first, each
preceded by the separator. -/
def datasetElemsText (ind : Nat) : List Record → Str
  | [] => []
  | r :: rs => sepText ind ++ recordObjText ind r ++ datasetElemsText ind rs

/-- The full printed dataset text. -/
def datasetText : List Record → Str
  | [] => ['[', ']']
  | r :: rs =>
    '[' :: '\n' :: spaces 2 ++ recordObjText 2 r ++ datasetElemsText 2 rs
      ++ '\n' :: [']']

/-! ## Loading the insights file -/

/-- The two supported format strings (`core.getInput("format")` after
lowercasing). -/
def jsonFmt : Str := ("json".data)

/-- The CSV format string. -/
def csvFmt : Str := ("csv".data)

/-- JavaScript `.length` property access on a parsed value: arrays and
strings have one; on any other value it is `undefined`. -/
def jsLength : JsVal → Option Int
  | .arr xs => some xs.length
  | .str s => some s.length
  | _ => none

/-- Ways the `getContent` fetch can fail. -/
inductive FetchErr where
  | notFound : FetchErr
  | auth : FetchErr
  | rateLimit : FetchErr
  | network : FetchErr
deriving Repr, DecidableEq

/-- The errors a run can propagate. -/
inductive JsError where
  | unsupportedFormat : JsError
  | generateError : JsError
  | typeError : JsError
  | apiError : JsError
deriving Repr, DecidableEq

/-- The empty JSON dataset text, `JSON.stringify([], null, 2)`. -/
def jsonEmptyText : Str := ['[', ']']

/-- The header line with its trailing newline: the empty CSV dataset
text built by `getInsightsFile`. -/
def csvEmptyText : Str := csvHeaderStr ++ ['\n']

/-- The `try` block of `getInsightsFile` after a successful fetch:
decode per format (counting records), throwing (`Except.error`) when
`JSON.parse` throws or the format is unsupported.  The CSV count is
`csvLines.length - 1`; a `.length` of `undefined` (JSON file that is
neither array nor string) is `none`. -/
def insightsTryBody (format : Str) (content : Str) :
    Except Unit (Str × Option Int) :=
  if format = jsonFmt then
    match parseJson content with
    | some v => .ok (content, jsLength v)
    | none => .error ()
  else if format = csvFmt then
    .ok (joinNl (csvLinesOf content), some ((csvLinesOf content).length - 1))
  else .error ()

/-- The `catch` block of `getInsightsFile`: build the empty file for the
format, or rethrow `UnsupportedFormatError`. -/
def insightsCatchBody (format : Str) : Except JsError (Str × Option Int) :=
  if format = jsonFmt then .ok (jsonEmptyText, some 0)
  else if format = csvFmt then .ok (csvEmptyText, some 0)
  else .error .unsupportedFormat

/-- Model of `getInsightsFile`: fetch the file on the branch and decode it.  Any
throw inside the `try` — a fetch failure of any kind, a `JSON.parse`
failure, or the unsupported-format throw — lands in the indiscriminate
`catch`, which logs and builds the empty file, itself throwing only for
an unsupported format. -/
def getInsightsFile (format : Str) (fetched : Except FetchErr Str) :
    Except JsError (Str × Option Int) :=
  match fetched with
  | .error _ => insightsCatchBody format
  | .ok content =>
    match insightsTryBody format content with
    | .ok res => .ok res
    | .error _ => insightsCatchBody format

/-! ## Generating the updated file -/

/-- Model of `generateFileContent`: parse the current file text, apply the
insert-or-replace step for `newEntry`, and re-serialize.  `Except.error`
models the rethrown failure (`Unable to generate file content`: a
`JSON.parse` throw, or `findIndex` on a non-array); the `Option.none`
result is the `undefined` returned when the format matches neither
branch (unreachable in a run, `getInsightsFile` has already thrown). -/
def generateFileContent (format : Str) (insightsFile : Str) (r : Record) :
    Except JsError (Option Str) :=
  if format = jsonFmt then
    match parseJson insightsFile with
    | some (.arr entries) =>
      .ok (some (stringifyJson (.arr (jsUpsertEntries entries r))))
    | some _ => .error .generateError
    | none => .error .generateError
  else if format = csvFmt then
    .ok (some (joinNl (csvUpsert (csvLinesOf insightsFile) r)))
  else .ok none

/-! ## The run pipeline -/

/-- The decrementing `while (i != 1)` loop bound of the backfill step:
the day offsets visited starting from `i`.  The source enters the loop
only with `i = 14`; for `i ≤ 1` no iteration runs. -/
def backfillOffsets : Nat → List Nat
  | 0 => []
  | 1 => []
  | n + 2 => (n + 2) :: backfillOffsets (n + 1)

/-- JavaScript `<` between the possibly-`undefined` record count and a
number: `undefined < n` is `false`. -/
def jsLtCount (k : Option Int) (n : Int) : Bool :=
  match k with
  | some v => decide (v < n)
  | none => false

/-- The day offsets whose records the run upserts during backfill: the
full window `14..2` when `insightsCount < 14` holds, nothing otherwise
(the `if (insightsCount < 14)` guard in `run`). -/
def backfillUpsertOffsets (k : Option Int) : List Nat :=
  if jsLtCount k 14 then backfillOffsets 14 else []

/-- The external world one run observes: the totals from the single
`getRepoStats` call, the storage branch state, the stored file fetch,
and the per-date traffic and clone metrics (`getYesterdayTraffic` /
`getYesterdayClones` results, `{0,0}` when the date is absent).
`dateStr i` is the ISO date string of today minus `i` days. -/
structure RunEnv where
  stargazerCount : Nat
  commitCount : Nat
  contributorsCount : Nat
  branchExists : Bool
  mainExists : Bool
  fetched : Except FetchErr Str
  trafficAt : Str → Nat × Nat
  clonesAt : Str → Nat × Nat
  dateStr : Nat → Str

/-- The record the run builds for day offset `i`: the three totals come
from the one `getRepoStats` call made before any loop; only the traffic
and clone figures are fetched per date. -/
def backfillRecord (env : RunEnv) (i : Nat) : Record :=
  { date := env.dateStr i,
    stargazers := env.stargazerCount,
    commits := env.commitCount,
    contributors := env.contributorsCount,
    traffic_views := (env.trafficAt (env.dateStr i)).1,
    traffic_uniques := (env.trafficAt (env.dateStr i)).2,
    clones_count := (env.clonesAt (env.dateStr i)).1,
    clones_uniques := (env.clonesAt (env.dateStr i)).2 }

/-- The remote operations a run can perform against the two APIs. -/
inductive RemoteOp where
  | fetchStats : RemoteOp
  | getRefBranch : RemoteOp
  | getRefMain : RemoteOp
  | createBranch : RemoteOp
  | getContentFile : RemoteOp
  | getViews : RemoteOp
  | getClones : RemoteOp
  | getCommitOp : RemoteOp
  | createBlob : RemoteOp
  | createTree : RemoteOp
  | createCommitOp : RemoteOp
  | updateRef : RemoteOp
deriving Repr, DecidableEq

/-- Remote operations that mutate the storage repository. -/
def isMutation : RemoteOp → Bool
  | .createBranch => true
  | .createBlob => true
  | .createTree => true
  | .createCommitOp => true
  | .updateRef => true
  | _ => false

/-- The `ensureBranchExists` call inside `run`, as trace plus outcome:
resolve the branch; on its not-found failure read `heads/main` and
create the branch from it (the creation is the mutation); a failing
`getRef` on main (modelled by `mainExists = false`) propagates. -/
def branchPhase (env : RunEnv) : List RemoteOp × Except JsError Unit :=
  if env.branchExists then ([.getRefBranch], .ok ())
  else if env.mainExists then
    ([.getRefBranch, .getRefMain, .createBranch], .ok ())
  else ([.getRefBranch, .getRefMain], .error .apiError)

/-- Apply `generateFileContent` to the carried file text for day offset
`i` (`undefined` text would make the next parse throw). -/
def genAtOffset (format : Str) (env : RunEnv) (st : Option Str) (i : Nat) :
    Except JsError (Option Str) :=
  match st with
  | none => .error .typeError
  | some f => generateFileContent format f (backfillRecord env i)

/-- One backfill iteration: fetch the day's traffic and clones (the two
reads run in parallel), then apply the insert-or-replace step to the
in-memory file text.  After an abort, no further operations happen. -/
def backfillIter (format : Str) (env : RunEnv)
    (st : List RemoteOp × Except JsError (Option Str)) (i : Nat) :
    List RemoteOp × Except JsError (Option Str) :=
  match st.2 with
  | .error _ => st
  | .ok f => (st.1 ++ [.getViews, .getClones], genAtOffset format env f i)

/-- Model of `commitFileToBranch`: resolve the branch head, read its commit, then
blob → tree → commit → ref update. -/
def commitPhaseOps : List RemoteOp :=
  [.getRefBranch, .getCommitOp, .createBlob, .createTree, .createCommitOp,
    .updateRef]

/-- The orchestrating `run`: stats → ensure branch → load file →
conditional backfill → yesterday's fetches → insert-or-replace →
commit.  Returns the trace of remote operations performed and the
outcome: the committed file text, or the error that aborted the run
(`run` catches it and reports failure to the host). -/
def runModel (format : Str) (env : RunEnv) : List RemoteOp × Except JsError Str :=
  let bp := branchPhase env
  match bp.2 with
  | .error e => ([RemoteOp.fetchStats] ++ bp.1, .error e)
  | .ok _ =>
    match getInsightsFile format env.fetched with
    | .error e => ([RemoteOp.fetchStats] ++ bp.1 ++ [.getContentFile], .error e)
    | .ok (file0, count) =>
      let bf := (backfillUpsertOffsets count).foldl (backfillIter format env)
        ([], .ok (some file0))
      match bf.2 with
      | .error e =>
        ([RemoteOp.fetchStats] ++ bp.1 ++ [.getContentFile] ++ bf.1, .error e)
      | .ok fileB =>
        match genAtOffset format env fileB 1 with
        | .error e =>
          ([RemoteOp.fetchStats] ++ bp.1 ++ [.getContentFile] ++ bf.1 ++
            [.getViews, .getClones], .error e)
        | .ok none =>
          ([RemoteOp.fetchStats] ++ bp.1 ++ [.getContentFile] ++ bf.1 ++
            [.getViews, .getClones, .getRefBranch, .getCommitOp],
            .error .typeError)
        | .ok (some content) =>
          ([RemoteOp.fetchStats] ++ bp.1 ++ [.getContentFile] ++ bf.1 ++
            [.getViews, .getClones] ++ commitPhaseOps, .ok content)

/-! ## Branch provisioning against a git state -/

/-- The storage repository's branch references: name to head commit id. -/
structure GitState where
  refs : List (Str × Str)
deriving Repr, DecidableEq

/-- The base branch `ensureBranchExists` creates from. -/
def mainBranch : Str := ("main".data)

/-- Resolve a ref (`octokit.rest.git.getRef`): the head commit id, or
`none` for the status-404 "reference not found" failure. -/
def getRefSha (s : GitState) (branch : Str) : Option Str :=
  (s.refs.find? (fun kv => kv.1 == branch)).map (fun kv => kv.2)

/-- Create a ref (`octokit.rest.git.createRef`). -/
def createRefAt (s : GitState) (branch sha : Str) : GitState :=
  { refs := s.refs ++ [(branch, sha)] }

/-- Model of `ensureBranchExists`: resolve the branch; when it exists nothing
further happens.  On the 404 failure, read `heads/main` and create the
branch at main's current head commit id.  A failing inner `getRef` on
main propagates out of the `catch` block. -/
def ensureBranchExists (s : GitState) (branch : Str) : Except JsError GitState :=
  match getRefSha s branch with
  | some _ => .ok s
  | none =>
    match getRefSha s mainBranch with
    | some mainSha => .ok (createRefAt s branch mainSha)
    | none => .error .apiError

/-! ## Printed scalar and member text helpers -/

/-- Scalar JSON values: the leaves of a dataset. -/
def IsScalar (v : JsVal) : Prop := (∃ s, v = .str s) ∨ (∃ n, v = .num n)

/-- The printed text of a scalar. -/
def scalarText : JsVal → Str
  | .str s => '"' :: s ++ ['"']
  | .num n => intChars n
  | _ => []

/-- The text of a member list of scalars. -/
def membersTailText (ind : Nat) : List (Str × JsVal) → Str
  | [] => []
  | kv :: kvs => sepText ind ++ keyText kv.1 ++ scalarText kv.2
      ++ membersTailText ind kvs

/-! ## Sample data for witnesses -/

/-- A sample record, as in the specification's example scenario. -/
def sampleRec1 : Record :=
  { date := ("2024-01-01".data), stargazers := 10, commits := 3,
    contributors := 2, traffic_views := 5, traffic_uniques := 4,
    clones_count := 1, clones_uniques := 1 }

/-- A second sample record with a distinct date. -/
def sampleRec2 : Record :=
  { date := ("2024-01-02".data), stargazers := 12, commits := 4,
    contributors := 2, traffic_views := 6, traffic_uniques := 3,
    clones_count := 2, clones_uniques := 1 }

/-- The sample record for `2024-01-01` with updated stargazers, as in the
specification's replacement scenario. -/
def sampleRec1' : Record :=
  { sampleRec1 with stargazers := 15 }

/-- A format string that is neither of the two supported ones. -/
def xmlFmt : Str := ("xml".data)

/-- A sample run environment: the storage branch does not exist yet,
`heads/main` does, and the insights file is absent. -/
def sampleEnv : RunEnv :=
  { stargazerCount := 10, commitCount := 3, contributorsCount := 2,
    branchExists := false, mainExists := true,
    fetched := .error .notFound,
    trafficAt := fun _ => (5, 4), clonesAt := fun _ => (1, 1),
    dateStr := fun _ => ("2024-01-01".data) }

/-- A sample git state holding only `main`. -/
def sampleGit : GitState := { refs := [(mainBranch, ("abc123".data))] }

/-- The default storage branch name. -/
def insightsBranch : Str := ("repository-insights".data)

/-! # Theorems -/

/-! ## Generic facts about the insert-or-replace step -/

theorem jsFindIndexAux_shift (p : α → Bool) (l : List α) (n : Nat) :
    jsFindIndexAux p l n = (jsFindIndexAux p l 0).map (· + n) := by
  induction l generalizing n with
  | nil => simp [jsFindIndexAux]
  | cons a l ih =>
    by_cases h : p a
    · simp [jsFindIndexAux, h]
    · simp only [jsFindIndexAux, h, Bool.false_eq_true, if_false]
      rw [ih (n + 1), ih 1, Option.map_map]
      congr 1
      funext i
      simp
      omega

theorem jsFindIndex_cons_pos {p : α → Bool} {a : α} (l : List α) (h : p a = true) :
    jsFindIndex p (a :: l) = some 0 := by
  simp [jsFindIndex, jsFindIndexAux, h]

theorem jsFindIndex_cons_neg {p : α → Bool} {a : α} (l : List α) (h : p a = false) :
    jsFindIndex p (a :: l) = (jsFindIndex p l).map (· + 1) := by
  simp only [jsFindIndex, jsFindIndexAux, h, if_false]
  exact jsFindIndexAux_shift p l 1

theorem upsertBy_cons_pos {p : α → Bool} {a : α} (x : α) (l : List α)
    (h : p a = true) : upsertBy p x (a :: l) = x :: l := by
  simp [upsertBy, jsFindIndex_cons_pos l h, List.set]

theorem upsertBy_cons_neg {p : α → Bool} {a : α} (x : α) (l : List α)
    (h : p a = false) : upsertBy p x (a :: l) = a :: upsertBy p x l := by
  simp only [upsertBy, jsFindIndex_cons_neg l h]
  cases hfind : jsFindIndex p l with
  | none => simp
  | some i => simp [List.set]

/-- Inserting an element that matches its own search predicate is
idempotent: the second application replaces what the first wrote. -/
theorem upsertBy_idem (p : α → Bool) (x : α) (l : List α) (hx : p x = true) :
    upsertBy p x (upsertBy p x l) = upsertBy p x l := by
  induction l with
  | nil =>
    simp [upsertBy, jsFindIndex, jsFindIndexAux, hx]
  | cons a l ih =>
    by_cases h : p a
    · rw [upsertBy_cons_pos x l h, upsertBy_cons_pos x l hx]
    · rw [upsertBy_cons_neg x l (by simp [h]),
        upsertBy_cons_neg x (upsertBy p x l) (by simp [h]), ih]

/-- Elements of an `upsertBy` result come from the list or are the new
element. -/
theorem upsertBy_mem {p : α → Bool} {x b : α} {l : List α}
    (h : b ∈ upsertBy p x l) : b ∈ l ∨ b = x := by
  unfold upsertBy at h
  cases hfind : jsFindIndex p l with
  | some i =>
    rw [hfind] at h
    exact List.mem_or_eq_of_mem_set h
  | none =>
    rw [hfind] at h
    simpa using h

/-- Upserting commutes with mapping a representation function, given the
search predicate agrees across the representation. -/
theorem upsertBy_map {f : β → α} {p : α → Bool} {q : β → Bool} (x : β) (l : List β)
    (hq : ∀ a ∈ l, p (f a) = q a) :
    upsertBy p (f x) (l.map f) = (upsertBy q x l).map f := by
  induction l with
  | nil => simp [upsertBy, jsFindIndex, jsFindIndexAux]
  | cons a l ih =>
    have ha : p (f a) = q a := hq a (by simp)
    by_cases h : q a = true
    · rw [List.map_cons, upsertBy_cons_pos (f x) (l.map f) (ha.trans h),
        upsertBy_cons_pos x l h, List.map_cons]
    · have h' : q a = false := by simpa using h
      rw [List.map_cons, upsertBy_cons_neg (f x) (l.map f) (ha.trans h'),
        upsertBy_cons_neg x l h', List.map_cons,
        ih (fun b hb => hq b (by simp [hb]))]

/-! ## Dates, lines and the two representations -/

theorem entryDateIs_recordToJs (d : Str) (a : Record) :
    entryDateIs d (recordToJs a) = (a.date == d) := by
  simp [entryDateIs, recordToJs, List.find?]

theorem strStarts_append_self (p rest : Str) : strStarts p (p ++ rest) = true := by
  induction p with
  | nil => rfl
  | cons c cs ih => simp [strStarts, ih]

/-- A true `strStarts` means the candidate is the initial segment. -/
theorem strStarts_eq_take {p s : Str} (h : strStarts p s = true) :
    s.take p.length = p := by
  induction p generalizing s with
  | nil => simp
  | cons c cs ih =>
    cases s with
    | nil => simp [strStarts] at h
    | cons b bs =>
      simp only [strStarts, Bool.and_eq_true, beq_iff_eq] at h
      simp [h.1.symm, ih h.2]

theorem isIsoDate_length {d : Str} (h : isIsoDate d = true) : d.length = 10 := by
  unfold isIsoDate at h
  split at h
  · rfl
  · simp at h

/-- A calendar date never `startsWith`-matches the CSV header line. -/
theorem strStarts_header_false {d : Str} (h : isIsoDate d = true) :
    strStarts d csvHeaderStr = false := by
  unfold isIsoDate at h
  split at h
  case _ y1 y2 y3 y4 s1 m1 m2 s2 d1 d2 =>
    simp only [Bool.and_eq_true] at h
    have hy : y1.isDigit = true := h.1.1.1.1.1.1.1.1.1
    have : y1 ≠ 'd' := by
      intro e
      rw [e] at hy
      simp [Char.isDigit] at hy
    simp [csvHeaderStr, strStarts, this]
  · simp at h

/-- The freshly written CSV line begins with its own date. -/
theorem strStarts_csvLine_self (r : Record) :
    strStarts r.date (csvLine r) = true := by
  simpa [csvLine] using strStarts_append_self r.date _

/-- On lines with calendar dates, the CSV prefix test coincides with date
equality. -/
theorem strStarts_csvLine {d : Str} (a : Record) (hd : isIsoDate d = true)
    (ha : isIsoDate a.date = true) :
    strStarts d (csvLine a) = (a.date == d) := by
  by_cases he : a.date = d
  · subst he
    simp [strStarts_csvLine_self]
  · have : strStarts d (csvLine a) = false := by
      by_contra hc
      have hc' : strStarts d (csvLine a) = true := by simpa using hc
      have htake := strStarts_eq_take hc'
      rw [isIsoDate_length hd] at htake
      have h10 : a.date.length = 10 := isIsoDate_length ha
      have : (csvLine a).take 10 = a.date := by
        have : csvLine a = a.date ++ (',' :: natChars a.stargazers ++ ',' :: natChars a.commits ++
            ',' :: natChars a.contributors ++ ',' :: natChars a.traffic_views ++
            ',' :: natChars a.traffic_uniques ++ ',' :: natChars a.clones_count ++
            ',' :: natChars a.clones_uniques) := by
          simp [csvLine]
        rw [this, ← h10, List.take_left]
      exact he (by rw [← htake, this])
    simp [this, he]

/-! ## Claim C1 -/

/-- C1: the insert-or-replace step of `generateFileContent` is idempotent
per date, in both formats: applying it twice with the same record yields
the same dataset as applying it once. -/
theorem claim_C1_upsert_idempotent (recs : List Record) (lines : List Str)
    (r : Record) :
    jsUpsertEntries (jsUpsertEntries (recs.map recordToJs) r) r
        = jsUpsertEntries (recs.map recordToJs) r
      ∧ csvUpsert (csvUpsert lines r) r = csvUpsert lines r := by
  constructor
  · exact upsertBy_idem _ _ _ (by simp [entryDateIs_recordToJs])
  · exact upsertBy_idem _ _ _ (strStarts_csvLine_self r)

/-! ## Refinement of the two format-level steps to the data model -/

/-- The JSON step on a dataset of records is exactly the data-model
upsert, transported through `recordToJs`. -/
theorem jsUpsertEntries_refines (recs : List Record) (r : Record) :
    jsUpsertEntries (recs.map recordToJs) r
      = (upsertRecord recs r).map recordToJs := by
  exact upsertBy_map r recs (fun a _ => entryDateIs_recordToJs r.date a)

/-- The CSV step on a well-formed dataset (header plus one line per
record, all dates calendar dates) is exactly the data-model upsert,
transported through `csvLine`; the header line is never touched. -/
theorem csvUpsert_refines (recs : List Record) (r : Record)
    (hr : isIsoDate r.date = true) (ha : isoDataset recs) :
    csvUpsert (csvHeaderStr :: recs.map csvLine) r
      = csvHeaderStr :: (upsertRecord recs r).map csvLine := by
  unfold csvUpsert
  rw [upsertBy_cons_neg _ _ (strStarts_header_false hr)]
  congr 1
  exact upsertBy_map r recs (fun a haa => strStarts_csvLine a hr (ha a haa))

/-- The data-model upsert keeps dates distinct. -/
theorem upsertRecord_distinct {recs : List Record} (r : Record)
    (h : distinctDates recs) : distinctDates (upsertRecord recs r) := by
  induction recs with
  | nil =>
    simp [upsertRecord, upsertBy, jsFindIndex, jsFindIndexAux, distinctDates]
  | cons a l ih =>
    rw [distinctDates, List.pairwise_cons] at h
    obtain ⟨hal, hl⟩ := h
    by_cases hd : a.date = r.date
    · rw [upsertRecord, upsertBy_cons_pos _ _ (by simp [hd])]
      rw [distinctDates, List.pairwise_cons]
      exact ⟨fun b hb => hd ▸ hal b hb, hl⟩
    · rw [upsertRecord, upsertBy_cons_neg _ _ (by simp [hd])]
      rw [distinctDates, List.pairwise_cons]
      refine ⟨fun b hb => ?_, ih hl⟩
      rcases upsertBy_mem hb with hbl | rfl
      · exact hal b hbl
      · exact hd
  
/-- The data-model upsert keeps all dates well-formed. -/
theorem upsertRecord_iso {recs : List Record} {r : Record}
    (hr : isIsoDate r.date = true) (h : isoDataset recs) :
    isoDataset (upsertRecord recs r) := by
  intro b hb
  rcases upsertBy_mem hb with hbl | rfl
  · exact h b hbl
  · exact hr

/-- On a dataset with distinct dates, the search of the data-model upsert
finds exactly the position of the matching record. -/
theorem jsFindIndex_date_some {recs : List Record} {r e : Record} {i : Nat}
    (hu : distinctDates recs) (hi : recs[i]? = some e) (he : e.date = r.date) :
    jsFindIndex (fun a => a.date == r.date) recs = some i := by
  induction recs generalizing i with
  | nil => simp at hi
  | cons a l ih =>
    rw [distinctDates, List.pairwise_cons] at hu
    obtain ⟨hal, hl⟩ := hu
    cases i with
    | zero =>
      simp only [List.getElem?_cons_zero, Option.some_inj] at hi
      subst hi
      exact jsFindIndex_cons_pos l (by simp [he])
    | succ j =>
      simp only [List.getElem?_cons_succ] at hi
      have hmem : e ∈ l := List.getElem?_mem hi
      have hne : a.date ≠ r.date := fun hc => (hal e hmem) (hc.trans he.symm)
      rw [jsFindIndex_cons_neg l (by simp [hne]), ih hl hi]
      rfl

/-- When no record carries the date, the search fails. -/
theorem jsFindIndex_date_none {recs : List Record} {r : Record}
    (h : ∀ e ∈ recs, e.date ≠ r.date) :
    jsFindIndex (fun a => a.date == r.date) recs = none := by
  induction recs with
  | nil => rfl
  | cons a l ih =>
    rw [jsFindIndex_cons_neg l (by simp [h a (by simp)]),
      ih (fun e he => h e (by simp [he]))]
    rfl

theorem upsertRecord_set {recs : List Record} {r e : Record} {i : Nat}
    (hu : distinctDates recs) (hi : recs[i]? = some e) (he : e.date = r.date) :
    upsertRecord recs r = recs.set i r := by
  rw [upsertRecord, upsertBy, jsFindIndex_date_some hu hi he]

theorem upsertRecord_append {recs : List Record} {r : Record}
    (h : ∀ e ∈ recs, e.date ≠ r.date) :
    upsertRecord recs r = recs ++ [r] := by
  rw [upsertRecord, upsertBy, jsFindIndex_date_none h]

/-! ## Claim C2 -/

/-- C2: date uniqueness is an invariant.  Starting from any dataset with
distinct calendar dates, any sequence of upserts in either format yields
the representation of a dataset whose dates remain pairwise distinct: the
JSON entry list and CSV line list stay in the image of a record dataset
with distinct dates. -/
theorem claim_C2_dates_unique (recs rs : List Record)
    (h0 : distinctDates recs) (hiso : isoDataset recs)
    (hiso2 : ∀ a ∈ rs, isIsoDate a.date = true) :
    distinctDates (rs.foldl upsertRecord recs)
      ∧ rs.foldl jsUpsertEntries (recs.map recordToJs)
          = (rs.foldl upsertRecord recs).map recordToJs
      ∧ rs.foldl csvUpsert (csvHeaderStr :: recs.map csvLine)
          = csvHeaderStr :: (rs.foldl upsertRecord recs).map csvLine := by
  induction rs generalizing recs with
  | nil => exact ⟨h0, rfl, rfl⟩
  | cons r rs ih =>
    have hr : isIsoDate r.date = true := hiso2 r (by simp)
    have h0' := upsertRecord_distinct r h0
    have hiso' := upsertRecord_iso hr hiso
    have hiso2' : ∀ a ∈ rs, isIsoDate a.date = true :=
      fun a haa => hiso2 a (by simp [haa])
    obtain ⟨hA, hB, hC⟩ := ih (upsertRecord recs r) h0' hiso' hiso2'
    simp only [List.foldl_cons]
    refine ⟨hA, ?_, ?_⟩
    · rw [jsUpsertEntries_refines]
      exact hB
    · rw [csvUpsert_refines recs r hr hiso]
      exact hC

/-- Witness for C2 at a concrete dataset and upsert sequence. -/
theorem claim_C2_dates_unique_witness :
    distinctDates ([sampleRec2].foldl upsertRecord [sampleRec1])
      ∧ [sampleRec2].foldl jsUpsertEntries ([sampleRec1].map recordToJs)
          = ([sampleRec2].foldl upsertRecord [sampleRec1]).map recordToJs
      ∧ [sampleRec2].foldl csvUpsert (csvHeaderStr :: [sampleRec1].map csvLine)
          = csvHeaderStr :: ([sampleRec2].foldl upsertRecord [sampleRec1]).map csvLine :=
  claim_C2_dates_unique [sampleRec1] [sampleRec2]
    (by simp [distinctDates, sampleRec1])
    (by intro a ha; simp at ha; subst ha; decide)
    (by intro a ha; simp at ha; subst ha; decide)

/-! ## Claim C6 -/

/-- C6: upsert placement.  On a dataset with distinct calendar dates, if
some record carries the new record's date, both format-level steps
replace it at its existing index, leaving length and every other position
unchanged; otherwise both append at the end. -/
theorem claim_C6_upsert_placement (recs : List Record) (r : Record)
    (hu : distinctDates recs) (hiso : isoDataset recs)
    (hr : isIsoDate r.date = true) :
    (∀ i e, recs[i]? = some e → e.date = r.date →
      jsUpsertEntries (recs.map recordToJs) r = ((recs.set i r).map recordToJs)
        ∧ csvUpsert (csvHeaderStr :: recs.map csvLine) r
            = csvHeaderStr :: (recs.set i r).map csvLine
        ∧ (recs.set i r).length = recs.length
        ∧ (recs.set i r)[i]? = some r
        ∧ ∀ j, j ≠ i → (recs.set i r)[j]? = recs[j]?)
      ∧ ((∀ e ∈ recs, e.date ≠ r.date) →
        jsUpsertEntries (recs.map recordToJs) r = ((recs ++ [r]).map recordToJs)
          ∧ csvUpsert (csvHeaderStr :: recs.map csvLine) r
              = csvHeaderStr :: (recs ++ [r]).map csvLine) := by
  constructor
  · intro i e hi he
    have hset := upsertRecord_set hu hi he
    have hlt : i < recs.length := by
      by_contra hge
      rw [List.getElem?_eq_none (by omega)] at hi
      exact Option.noConfusion hi
    refine ⟨?_, ?_, by simp, ?_, ?_⟩
    · rw [jsUpsertEntries_refines, hset]
    · rw [csvUpsert_refines recs r hr hiso, hset]
    · simp [List.getElem?_set_self, hlt]
    · intro j hj
      exact List.getElem?_set_ne (fun hc => hj hc.symm)
  · intro hnone
    have happ := upsertRecord_append hnone
    constructor
    · rw [jsUpsertEntries_refines, happ]
    · rw [csvUpsert_refines recs r hr hiso, happ]

/-- Witness for C6: the specification's replacement scenario, one record
for `2024-01-01` replaced in place by the same-date record with
`stargazers = 15`. -/
theorem claim_C6_upsert_placement_witness :
    jsUpsertEntries ([sampleRec1].map recordToJs) sampleRec1'
        = (([sampleRec1].set 0 sampleRec1').map recordToJs)
      ∧ csvUpsert (csvHeaderStr :: [sampleRec1].map csvLine) sampleRec1'
          = csvHeaderStr :: ([sampleRec1].set 0 sampleRec1').map csvLine
      ∧ ([sampleRec1].set 0 sampleRec1').length = [sampleRec1].length
      ∧ ([sampleRec1].set 0 sampleRec1')[0]? = some sampleRec1'
      ∧ ∀ j, j ≠ 0 → ([sampleRec1].set 0 sampleRec1')[j]? = [sampleRec1][j]? :=
  (claim_C6_upsert_placement [sampleRec1] sampleRec1'
    (by simp [distinctDates])
    (by intro a ha; simp at ha; subst ha; decide)
    (by decide)).1 0 sampleRec1 rfl (by decide)

/-! ## Claim C3 -/

/-- C3: the backfill threshold is all-or-nothing.  When the loaded record
count `k` is below 14, the `while (i != 1)` loop starting at `i = 14`
upserts exactly the 13 day offsets `14` down to `2`; when `k ≥ 14` no
backfill upsert happens. -/
theorem claim_C3_backfill_threshold (k : Int) :
    (k < 14 →
      backfillUpsertOffsets (some k)
          = [14, 13, 12, 11, 10, 9, 8, 7, 6, 5, 4, 3, 2]
        ∧ (backfillUpsertOffsets (some k)).length = 13)
      ∧ (14 ≤ k → backfillUpsertOffsets (some k) = []) := by
  constructor
  · intro h
    have : jsLtCount (some k) 14 = true := by simp [jsLtCount, h]
    rw [backfillUpsertOffsets, if_pos this]
    exact ⟨by decide, by decide⟩
  · intro h
    have : jsLtCount (some k) 14 = false := by simp [jsLtCount]; omega
    rw [backfillUpsertOffsets, if_neg (by simp [this])]

/-- Witness for C3 at counts 0 and 20. -/
theorem claim_C3_backfill_threshold_witness :
    (backfillUpsertOffsets (some 0)
          = [14, 13, 12, 11, 10, 9, 8, 7, 6, 5, 4, 3, 2]
        ∧ (backfillUpsertOffsets (some 0)).length = 13)
      ∧ backfillUpsertOffsets (some 20) = [] :=
  ⟨(claim_C3_backfill_threshold 0).1 (by decide),
    (claim_C3_backfill_threshold 20).2 (by decide)⟩

/-! ## Claims C4 and C5: loading -/

/-- C4 counterexample: a fetch failure that is an auth error — not a
"not found" — makes `load` return the empty-dataset fallback with record
count 0 instead of propagating an access error, and undecodable JSON
content does the same instead of propagating a malformed-data error: the
`catch` in `getInsightsFile` is indiscriminate. -/
theorem claim_C4_counterexample :
    getInsightsFile jsonFmt (.error .auth) = .ok (jsonEmptyText, some 0)
      ∧ getInsightsFile jsonFmt (.ok (("not json".data)))
          = .ok (jsonEmptyText, some 0) := by
  exact ⟨rfl, rfl⟩

/-- C4 (amended): every fetch failure, of any kind, and every fetch
whose JSON content fails to decode, is swallowed by `getInsightsFile`'s
`catch` and yields the empty-dataset fallback with record count 0; no
distinct error classes are raised (only the unsupported-format error
escapes the catch). -/
theorem claim_C4_load_error_fallback (e : FetchErr) (content : Str) :
    getInsightsFile jsonFmt (.error e) = .ok (jsonEmptyText, some 0)
      ∧ getInsightsFile csvFmt (.error e) = .ok (csvEmptyText, some 0)
      ∧ (parseJson content = none →
          getInsightsFile jsonFmt (.ok content) = .ok (jsonEmptyText, some 0)) := by
  refine ⟨rfl, rfl, fun h => ?_⟩
  simp [getInsightsFile, insightsTryBody, h, insightsCatchBody]

/-- Witness for C4 (amended) at a concrete undecodable content. -/
theorem claim_C4_load_error_fallback_witness :
    parseJson (("not json".data)) = none
      ∧ getInsightsFile jsonFmt (.ok (("not json".data)))
          = .ok (jsonEmptyText, some 0) :=
  ⟨rfl, (claim_C4_load_error_fallback .auth (("not json".data))).2.2 rfl⟩

/-- C5: the missing-file fallback.  A load whose fetch reports "not
found" returns, without error, the empty dataset for the format — the
empty JSON array text, or the CSV header line only — with record
count 0. -/
theorem claim_C5_missing_file_fallback :
    getInsightsFile jsonFmt (.error .notFound) = .ok (jsonEmptyText, some 0)
      ∧ getInsightsFile csvFmt (.error .notFound) = .ok (csvEmptyText, some 0) :=
  ⟨rfl, rfl⟩

/-! ## Claim C8 -/

/-- With an unsupported format, loading fails with the
unsupported-format error whatever the fetch returned. -/
theorem getInsightsFile_unsupported (format : Str) (fetched : Except FetchErr Str)
    (hjson : format ≠ jsonFmt) (hcsv : format ≠ csvFmt) :
    getInsightsFile format fetched = .error .unsupportedFormat := by
  have hcatch : insightsCatchBody format = .error .unsupportedFormat := by
    simp [insightsCatchBody, hjson, hcsv]
  cases fetched with
  | error e => simpa [getInsightsFile] using hcatch
  | ok content =>
    have htry : insightsTryBody format content = .error () := by
      simp [insightsTryBody, hjson, hcsv]
    simp [getInsightsFile, htry, hcatch]

/-- C8 counterexample: a run configured with format `xml` against a
repository where the storage branch does not exist fails with the
unsupported-format error, but the branch creation — a remote mutation —
has already been performed before the abort. -/
theorem claim_C8_counterexample :
    (runModel xmlFmt sampleEnv).2 = .error .unsupportedFormat
      ∧ RemoteOp.createBranch ∈ (runModel xmlFmt sampleEnv).1
      ∧ isMutation RemoteOp.createBranch = true := by
  refine ⟨rfl, ?_, rfl⟩
  show RemoteOp.createBranch ∈ [RemoteOp.fetchStats, .getRefBranch, .getRefMain,
    .createBranch, .getContentFile]
  simp

/-- C8 (amended): a run configured with a format other than `json` or
`csv` fails with the unsupported-format error, and no part of the
dataset commit (blob, tree, commit, ref update) has been performed — but
branch provisioning runs first, so when the storage branch was absent
its creation has already happened before the abort. -/
theorem claim_C8_unsupported_format (format : Str) (env : RunEnv)
    (hjson : format ≠ jsonFmt) (hcsv : format ≠ csvFmt)
    (hbranch : env.branchExists = true ∨ env.mainExists = true) :
    (runModel format env).2 = .error .unsupportedFormat
      ∧ RemoteOp.updateRef ∉ (runModel format env).1
      ∧ RemoteOp.createBlob ∉ (runModel format env).1
      ∧ RemoteOp.createTree ∉ (runModel format env).1
      ∧ RemoteOp.createCommitOp ∉ (runModel format env).1
      ∧ (env.branchExists = false →
          RemoteOp.createBranch ∈ (runModel format env).1) := by
  have hload := getInsightsFile_unsupported format env.fetched hjson hcsv
  by_cases hb : env.branchExists = true
  · have hbp : branchPhase env = ([.getRefBranch], .ok ()) := by
      simp [branchPhase, hb]
    have : runModel format env
        = ([RemoteOp.fetchStats] ++ [.getRefBranch] ++ [.getContentFile],
            .error .unsupportedFormat) := by
      rw [runModel, hbp]
      simp [hload]
    rw [this]
    refine ⟨rfl, by simp, by simp, by simp, by simp, fun hfalse => ?_⟩
    rw [hb] at hfalse
    exact absurd hfalse (by simp)
  · have hb' : env.branchExists = false := by simpa using hb
    have hm : env.mainExists = true := by
      rcases hbranch with h | h
      · exact absurd h hb
      · exact h
    have hbp : branchPhase env
        = ([.getRefBranch, .getRefMain, .createBranch], .ok ()) := by
      simp [branchPhase, hb', hm]
    have : runModel format env
        = ([RemoteOp.fetchStats] ++ [.getRefBranch, .getRefMain, .createBranch]
            ++ [.getContentFile], .error .unsupportedFormat) := by
      rw [runModel, hbp]
      simp [hload]
    rw [this]
    exact ⟨rfl, by simp, by simp, by simp, by simp, fun _ => by simp⟩

/-- Witness for C8 (amended) at the concrete environment of the
counterexample, with format `xml`. -/
theorem claim_C8_unsupported_format_witness :
    (runModel xmlFmt sampleEnv).2 = .error .unsupportedFormat
      ∧ RemoteOp.updateRef ∉ (runModel xmlFmt sampleEnv).1
      ∧ RemoteOp.createBlob ∉ (runModel xmlFmt sampleEnv).1
      ∧ RemoteOp.createTree ∉ (runModel xmlFmt sampleEnv).1
      ∧ RemoteOp.createCommitOp ∉ (runModel xmlFmt sampleEnv).1
      ∧ (sampleEnv.branchExists = false →
          RemoteOp.createBranch ∈ (runModel xmlFmt sampleEnv).1) :=
  claim_C8_unsupported_format xmlFmt sampleEnv (by decide) (by decide)
    (Or.inr rfl)

/-! ## Claim C9 -/

/-- C9: branch provisioning creates from the base and is idempotent.
When resolving the branch fails with the not-found condition, `ensure`
creates it pointing at main's current head commit id, leaving every
other ref unchanged; when the branch exists, the state is returned
untouched; and a second call after any successful call is a no-op. -/
theorem claim_C9_branch_provisioning (s : GitState) (branch : Str) :
    (∀ mainSha, getRefSha s branch = none →
      getRefSha s mainBranch = some mainSha →
        ensureBranchExists s branch = .ok (createRefAt s branch mainSha)
          ∧ getRefSha (createRefAt s branch mainSha) branch = some mainSha
          ∧ ∀ b, b ≠ branch →
              getRefSha (createRefAt s branch mainSha) b = getRefSha s b)
      ∧ (∀ sha, getRefSha s branch = some sha →
          ensureBranchExists s branch = .ok s)
      ∧ (∀ s', ensureBranchExists s branch = .ok s' →
          ensureBranchExists s' branch = .ok s') := by
  refine ⟨?_, ?_, ?_⟩
  · intro mainSha habs hmain
    have hfind : s.refs.find? (fun kv => kv.1 == branch) = none := by
      cases hf : s.refs.find? (fun kv => kv.1 == branch) with
      | none => rfl
      | some kv => rw [getRefSha, hf] at habs; simp at habs
    have hcreated : getRefSha (createRefAt s branch mainSha) branch
        = some mainSha := by
      rw [getRefSha, createRefAt, List.find?_append]
      simp only at hfind
      rw [hfind]
      simp [List.find?]
    refine ⟨?_, hcreated, ?_⟩
    · rw [ensureBranchExists, habs, hmain]
    · intro b hb
      rw [getRefSha, createRefAt, List.find?_append]
      simp only at hfind
      have hne : (branch == b) = false := by
        simp only [beq_eq_false_iff_ne]
        exact fun hc => hb hc.symm
      have : List.find? (fun kv => kv.1 == b) [(branch, mainSha)] = none := by
        simp [List.find?, hne]
      cases hf : s.refs.find? (fun kv => kv.1 == b) with
      | none => simp [hf, this, getRefSha]
      | some kv => simp [hf, getRefSha]
  · intro sha hex
    rw [ensureBranchExists, hex]
  · intro s' h
    cases hfind : getRefSha s branch with
    | some sha =>
      rw [ensureBranchExists, hfind] at h
      cases h
      rw [ensureBranchExists, hfind]
    | none =>
      rw [ensureBranchExists, hfind] at h
      cases hmain : getRefSha s mainBranch with
      | none => rw [hmain] at h; exact Except.noConfusion h
      | some mainSha =>
        rw [hmain] at h
        cases h
        have hcreated : getRefSha (createRefAt s branch mainSha) branch
            = some mainSha := by
          have hfind' : s.refs.find? (fun kv => kv.1 == branch) = none := by
            cases hf : s.refs.find? (fun kv => kv.1 == branch) with
            | none => rfl
            | some kv => rw [getRefSha, hf] at hfind; simp at hfind
          rw [getRefSha, createRefAt, List.find?_append]
          simp only at hfind'
          rw [hfind']
          simp [List.find?]
        rw [ensureBranchExists, hcreated]

/-- Witness for C9: creating the default storage branch from main in the
sample state, then observing the second call is a no-op. -/
theorem claim_C9_branch_provisioning_witness :
    (ensureBranchExists sampleGit insightsBranch
        = .ok (createRefAt sampleGit insightsBranch (("abc123".data)))
      ∧ getRefSha (createRefAt sampleGit insightsBranch (("abc123".data)))
          insightsBranch = some (("abc123".data))
      ∧ ∀ b, b ≠ insightsBranch →
          getRefSha (createRefAt sampleGit insightsBranch (("abc123".data))) b
            = getRefSha sampleGit b)
      ∧ ensureBranchExists
          (createRefAt sampleGit insightsBranch (("abc123".data)))
          insightsBranch
          = .ok (createRefAt sampleGit insightsBranch (("abc123".data))) := by
  have h := claim_C9_branch_provisioning sampleGit insightsBranch
  have h1 := h.1 (("abc123".data)) (by decide) (by decide)
  exact ⟨h1, h.2.2 _ h1.1⟩

/-! ## Claim C10 -/

/-- C10: backfilled records reuse the run-start totals.  Every record the
run builds during backfill carries the same stargazer, commit and
contributor counts — the ones from the single `getRepoStats` call — and
only the traffic and clone figures come from the per-date fetches. -/
theorem claim_C10_backfill_totals (env : RunEnv) (i j : Nat) :
    (backfillRecord env i).stargazers = env.stargazerCount
      ∧ (backfillRecord env i).commits = env.commitCount
      ∧ (backfillRecord env i).contributors = env.contributorsCount
      ∧ (backfillRecord env i).stargazers = (backfillRecord env j).stargazers
      ∧ (backfillRecord env i).commits = (backfillRecord env j).commits
      ∧ (backfillRecord env i).contributors = (backfillRecord env j).contributors
      ∧ (backfillRecord env i).traffic_views = (env.trafficAt (env.dateStr i)).1
      ∧ (backfillRecord env i).traffic_uniques = (env.trafficAt (env.dateStr i)).2
      ∧ (backfillRecord env i).clones_count = (env.clonesAt (env.dateStr i)).1
      ∧ (backfillRecord env i).clones_uniques = (env.clonesAt (env.dateStr i)).2 :=
  ⟨rfl, rfl, rfl, rfl, rfl, rfl, rfl, rfl, rfl, rfl⟩

/-! ## The JSON codec: printer and parser lemmas -/

theorem intChars_ofNat (n : Nat) : intChars ((n : Nat) : Int) = natChars n := by
  simp [intChars]

theorem stringifyV_scalar (f ind : Nat) (v : JsVal) (h : IsScalar v) :
    stringifyV (f + 1) ind v = scalarText v := by
  rcases h with ⟨s, rfl⟩ | ⟨n, rfl⟩ <;> rfl

theorem stringifyMembers_scalars (kvs : List (Str × JsVal)) :
    ∀ f ind, (∀ kv ∈ kvs, IsScalar kv.2) → kvs.length ≤ f →
    stringifyMembers (f + 1) ind kvs = membersTailText ind kvs := by
  induction kvs with
  | nil => intro f ind _ _; rfl
  | cons kv kvs ih =>
    intro f ind hs hf
    obtain ⟨f', rfl⟩ : ∃ f', f = f' + 1 := ⟨f - 1, by simp at hf; omega⟩
    show stringifyMembers (f' + 1 + 1) ind (kv :: kvs) = _
    rw [stringifyMembers, stringifyV_scalar f' ind kv.2 (hs kv (by simp)),
      ih f' ind (fun x hx => hs x (by simp [hx])) (by simp at hf; omega)]
    simp [membersTailText, sepText, keyText]

theorem stringifyV_record (f ind : Nat) (r : Record) (hf : 8 ≤ f) :
    stringifyV (f + 1) ind (recordToJs r) = recordObjText ind r := by
  obtain ⟨f', rfl⟩ : ∃ f', f = f' + 1 := ⟨f - 1, by omega⟩
  rw [recordToJs, stringifyV]
  rw [stringifyV_scalar f' (ind + 2) (.str r.date) (Or.inl ⟨r.date, rfl⟩)]
  rw [stringifyMembers_scalars _ f' (ind + 2)
    (by intro kv hkv; simp at hkv; rcases hkv with h | h | h | h | h | h | h <;>
      simp [h, IsScalar])
    (by simp; omega)]
  simp [recordObjText, membersTailText, scalarText, keyText, sepText,
    intChars_ofNat]

theorem stringifyElems_records (rs : List Record) :
    ∀ f ind, rs.length + 8 ≤ f →
    stringifyElems (f + 1) ind (rs.map recordToJs) = datasetElemsText ind rs := by
  induction rs with
  | nil => intro f ind _; rfl
  | cons r rs ih =>
    intro f ind hf
    obtain ⟨f', rfl⟩ : ∃ f', f = f' + 1 := ⟨f - 1, by omega⟩
    show stringifyElems (f' + 1 + 1) ind (recordToJs r :: rs.map recordToJs) = _
    rw [stringifyElems, stringifyV_record f' ind r (by simp at hf; omega),
      ih f' ind (by simp at hf; omega)]
    simp [datasetElemsText, sepText]

theorem jsSizeV_record (r : Record) : jsSizeV (recordToJs r) = 18 := rfl

theorem jsSizeArr_records (rs : List Record) :
    jsSizeArr (rs.map recordToJs) = 19 * rs.length + 1 := by
  induction rs with
  | nil => rfl
  | cons r rs ih =>
    show jsSizeArr (recordToJs r :: rs.map recordToJs) = _
    rw [jsSizeArr, jsSizeV_record, ih]
    simp
    ring

theorem stringify_dataset (recs : List Record) :
    stringifyJson (.arr (recs.map recordToJs)) = datasetText recs := by
  cases recs with
  | nil => rfl
  | cons r rs =>
    have hsz : jsSizeV (.arr ((r :: rs).map recordToJs)) = 19 * rs.length + 21 := by
      show jsSizeV (.arr (recordToJs r :: rs.map recordToJs)) = _
      rw [jsSizeV, jsSizeArr, jsSizeV_record, jsSizeArr_records]
      ring
    rw [stringifyJson, hsz]
    rw [show 19 * rs.length + 21 = (19 * rs.length + 20) + 1 by omega]
    show stringifyV ((19 * rs.length + 20) + 1) 0 (.arr (recordToJs r :: rs.map recordToJs)) = _
    rw [stringifyV]
    rw [show 19 * rs.length + 20 = (19 * rs.length + 19) + 1 by omega]
    rw [stringifyV_record _ 2 r (by omega), stringifyElems_records rs _ 2 (by omega)]
    simp [datasetText, spaces]

/-! ## Parser lemmas: characters and tokens -/

theorem ne_of_isDigit {c x : Char} (h : c.isDigit = true) (hx : x.isDigit = false) :
    c ≠ x := by
  intro e
  rw [e, hx] at h
  exact Bool.noConfusion h

theorem isWsChar_false_of_isDigit {c : Char} (h : c.isDigit = true) :
    isWsChar c = false := by
  by_contra hne
  have hw : isWsChar c = true := by simpa using hne
  simp only [isWsChar, Bool.or_eq_true, beq_iff_eq] at hw
  rcases hw with ((rfl | rfl) | rfl) | rfl <;> simp [Char.isDigit] at h

theorem digitOrDash_props {c : Char} (h : (c.isDigit || c == '-') = true) :
    isWsChar c = false ∧ c ≠ '"' ∧ c ≠ '\\' ∧ c ≠ '\n' := by
  simp only [Bool.or_eq_true, beq_iff_eq] at h
  rcases h with h | rfl
  · exact ⟨isWsChar_false_of_isDigit h, ne_of_isDigit h (by decide),
      ne_of_isDigit h (by decide), ne_of_isDigit h (by decide)⟩
  · exact ⟨by decide, by decide, by decide, by decide⟩

theorem isoDate_chars {d : Str} (h : isIsoDate d = true) :
    ∀ c ∈ d, (c.isDigit || c == '-') = true := by
  unfold isIsoDate at h
  split at h
  case _ y1 y2 y3 y4 s1 m1 m2 s2 d1 d2 =>
    simp only [Bool.and_eq_true, beq_iff_eq] at h
    obtain ⟨⟨⟨⟨⟨⟨⟨⟨⟨h1, h2⟩, h3⟩, h4⟩, h5⟩, h6⟩, h7⟩, h8⟩, h9⟩, h10⟩ := h
    intro c hc
    simp only [List.mem_cons, List.not_mem_nil, or_false] at hc
    rcases hc with rfl | rfl | rfl | rfl | rfl | rfl | rfl | rfl | rfl | rfl <;>
      simp [h1, h2, h3, h4, h5, h6, h7, h8, h9, h10]
  · simp at h

theorem isoDate_not_quote {d : Str} (h : isIsoDate d = true) : '"' ∉ d :=
  fun hc => (digitOrDash_props (isoDate_chars h _ hc)).2.1 rfl

theorem isoDate_not_backslash {d : Str} (h : isIsoDate d = true) : '\\' ∉ d :=
  fun hc => (digitOrDash_props (isoDate_chars h _ hc)).2.2.1 rfl

theorem isoDate_not_nl {d : Str} (h : isIsoDate d = true) : '\n' ∉ d :=
  fun hc => (digitOrDash_props (isoDate_chars h _ hc)).2.2.2 rfl

/-! ## Parser lemmas: whitespace -/

theorem skipWs_cons_of_not (c : Char) (h : isWsChar c = false) (l : Str) :
    skipWs (c :: l) = c :: l := by
  simp [skipWs, h]

theorem skipWs_append_ws {w : Str} (hw : ∀ c ∈ w, isWsChar c = true) (l : Str) :
    skipWs (w ++ l) = skipWs l := by
  induction w with
  | nil => simp
  | cons c cs ih =>
    have hc : isWsChar c = true := hw c (by simp)
    simp only [List.cons_append, skipWs, hc, if_true]
    exact ih (fun x hx => hw x (by simp [hx]))

theorem spaces_ws (n : Nat) : ∀ c ∈ spaces n, isWsChar c = true := by
  induction n with
  | zero => simp [spaces]
  | succ n ih =>
    intro c hc
    simp only [spaces, List.mem_cons] at hc
    rcases hc with rfl | hc
    · decide
    · exact ih c hc

theorem skipWs_nl_spaces (n : Nat) (l : Str) :
    skipWs ('\n' :: spaces n ++ l) = skipWs l := by
  have : isWsChar '\n' = true := by decide
  simp only [List.cons_append, skipWs, this, if_true]
  exact skipWs_append_ws (spaces_ws n) l

/-! ## Parser lemmas: string bodies and numbers -/

theorem parseStrBody_clean (s : Str) (rest : Str) (h1 : '"' ∉ s) (h2 : '\\' ∉ s) :
    parseStrBody (s ++ '"' :: rest) = some (s, rest) := by
  induction s with
  | nil => simp [parseStrBody]
  | cons c cs ih =>
    have hc1 : c ≠ '"' := fun e => h1 (by simp [e])
    have hc2 : c ≠ '\\' := fun e => h2 (by simp [e])
    have hih := ih (fun hx => h1 (by simp [hx])) (fun hx => h2 (by simp [hx]))
    simp only [List.cons_append, parseStrBody, beq_iff_eq, hc1, hc2, if_false,
      List.append_eq, hih]

theorem parseNatAux_stop {l : Str} (acc : Nat) (h : headIsDigit l = false) :
    parseNatAux l acc = (acc, l) := by
  cases l with
  | nil => rfl
  | cons c cs =>
    simp only [headIsDigit] at h
    simp [parseNatAux, h]

theorem digitChar_isDigit {d : Nat} (h : d < 10) :
    (digitChar d).isDigit = true := by
  interval_cases d <;> decide

theorem digitChar_toNat {d : Nat} (h : d < 10) :
    (digitChar d).toNat - 48 = d := by
  interval_cases d <;> decide

theorem natCharsAux_all_digits (fuel : Nat) :
    ∀ n, ∀ c ∈ natCharsAux fuel n, c.isDigit = true := by
  induction fuel with
  | zero => simp [natCharsAux]
  | succ fuel ih =>
    intro n c hc
    by_cases h : n < 10
    · simp only [natCharsAux, h, if_true, List.mem_singleton] at hc
      subst hc
      exact digitChar_isDigit h
    · simp only [natCharsAux, h, if_false, List.mem_append,
        List.mem_singleton] at hc
      rcases hc with hc | rfl
      · exact ih _ c hc
      · exact digitChar_isDigit (Nat.mod_lt _ (by omega))

theorem parseNatAux_natCharsAux (fuel : Nat) :
    ∀ n acc rest, n < fuel →
    parseNatAux (natCharsAux fuel n ++ rest) acc
      = parseNatAux rest (acc * 10 ^ (natCharsAux fuel n).length + n) := by
  induction fuel with
  | zero => intro n acc rest h; omega
  | succ fuel ih =>
    intro n acc rest h
    by_cases h10 : n < 10
    · simp only [natCharsAux, h10, if_true, List.singleton_append,
        List.length_singleton, parseNatAux, digitChar_isDigit h10, if_true,
        digitChar_toNat h10, pow_one]
    · have hrec : n / 10 < fuel := by omega
      have hmod : n % 10 < 10 := Nat.mod_lt _ (by omega)
      simp only [natCharsAux, h10, if_false, List.append_assoc,
        List.singleton_append]
      rw [ih (n / 10) acc (digitChar (n % 10) :: rest) hrec]
      simp only [parseNatAux, digitChar_isDigit hmod, if_true,
        digitChar_toNat hmod, List.length_append, List.length_singleton]
      congr 1
      have : 10 ^ ((natCharsAux fuel (n / 10)).length + 1)
          = 10 ^ (natCharsAux fuel (n / 10)).length * 10 := by ring
      rw [this]
      have hn : n / 10 * 10 + n % 10 = n := by omega
      ring_nf
      omega

theorem parseNatAux_natChars (n : Nat) (rest : Str)
    (h : headIsDigit rest = false) :
    parseNatAux (natChars n ++ rest) 0 = (n, rest) := by
  rw [natChars, parseNatAux_natCharsAux (n + 1) n 0 rest (by omega),
    parseNatAux_stop _ h]
  simp

theorem natChars_shape (n : Nat) :
    ∃ c t, natChars n = c :: t ∧ c.isDigit = true := by
  rw [natChars]
  cases h : natCharsAux (n + 1) n with
  | nil =>
    exfalso
    by_cases h10 : n < 10 <;> simp [natCharsAux, h10] at h
  | cons c t =>
    exact ⟨c, t, rfl, natCharsAux_all_digits (n + 1) n c (by rw [h]; simp)⟩

theorem parseNum_natChars (n : Nat) (rest : Str) (h : headIsDigit rest = false) :
    parseNum (natChars n ++ rest) = some ((n : Int), rest) := by
  obtain ⟨c, t, hct, hdig⟩ := natChars_shape n
  rw [hct, List.cons_append, parseNum]
  have hnd : (c == '-') = false := by
    simp only [beq_eq_false_iff_ne]
    exact ne_of_isDigit hdig (by decide)
  rw [hnd]
  simp only [Bool.false_eq_true, if_false, hdig, if_true]
  have : c :: (t ++ rest) = natChars n ++ rest := by rw [hct]; simp
  rw [this, parseNatAux_natChars n rest h]

theorem pv_str_sp (f : Nat) (s : Str) (h1 : '"' ∉ s) (h2 : '\\' ∉ s) (tl : Str) :
    parseVal (f + 1) (' ' :: '"' :: (s ++ '"' :: tl)) = some (.str s, tl) := by
  have hskip : skipWs (' ' :: '"' :: (s ++ '"' :: tl)) = '"' :: (s ++ '"' :: tl) := by
    have hsp : isWsChar ' ' = true := by decide
    simp only [skipWs, hsp, if_true]
    exact skipWs_cons_of_not '"' (by decide) _
  simp only [parseVal, hskip]
  simp only [show ('"' == '"') = true from rfl, if_true]
  rw [parseStrBody_clean s tl h1 h2]

theorem pv_nat_sp (f : Nat) (n : Nat) (tl : Str) (h : headIsDigit tl = false) :
    parseVal (f + 1) (' ' :: (natChars n ++ tl)) = some (.num (n : Int), tl) := by
  obtain ⟨c, t, hct, hdig⟩ := natChars_shape n
  have hskip : skipWs (' ' :: (natChars n ++ tl)) = c :: (t ++ tl) := by
    have hsp : isWsChar ' ' = true := by decide
    simp only [skipWs, hsp, if_true]
    rw [hct]
    show skipWs (c :: (t ++ tl)) = c :: (t ++ tl)
    exact skipWs_cons_of_not c (isWsChar_false_of_isDigit hdig) _
  have e1 : (c == '"') = false := by
    simp only [beq_eq_false_iff_ne]; exact ne_of_isDigit hdig (by decide)
  have e2 : (c == '[') = false := by
    simp only [beq_eq_false_iff_ne]; exact ne_of_isDigit hdig (by decide)
  have e3 : (c == '{') = false := by
    simp only [beq_eq_false_iff_ne]; exact ne_of_isDigit hdig (by decide)
  have e4 : (c == 'n') = false := by
    simp only [beq_eq_false_iff_ne]; exact ne_of_isDigit hdig (by decide)
  have e5 : (c == 't') = false := by
    simp only [beq_eq_false_iff_ne]; exact ne_of_isDigit hdig (by decide)
  have e6 : (c == 'f') = false := by
    simp only [beq_eq_false_iff_ne]; exact ne_of_isDigit hdig (by decide)
  simp only [parseVal, hskip, e1, e2, e3, e4, e5, e6, Bool.false_eq_true,
    if_false]
  have hre : c :: (t ++ tl) = natChars n ++ tl := by rw [hct]; simp
  rw [hre, parseNum_natChars n tl h]

theorem nlSpaces_ws (ind : Nat) :
    ∀ c ∈ ('\n' :: spaces ind : Str), isWsChar c = true := by
  intro c hc
  simp only [List.mem_cons] at hc
  rcases hc with rfl | hc
  · decide
  · exact spaces_ws ind c hc

theorem parseMembers_ws (f : Nat) {w : Str} (hw : ∀ c ∈ w, isWsChar c = true)
    (l : Str) : parseMembers f (w ++ l) = parseMembers f l := by
  cases f with
  | zero => rfl
  | succ f => simp only [parseMembers, skipWs_append_ws hw]

theorem parseVal_ws (f : Nat) {w : Str} (hw : ∀ c ∈ w, isWsChar c = true)
    (l : Str) : parseVal f (w ++ l) = parseVal f l := by
  cases f with
  | zero => rfl
  | succ f => simp only [parseVal, skipWs_append_ws hw]

theorem parseElems_ws (f : Nat) {w : Str} (hw : ∀ c ∈ w, isWsChar c = true)
    (l : Str) : parseElems f (w ++ l) = parseElems f l := by
  cases f with
  | zero => rfl
  | succ f => simp only [parseElems, parseVal_ws f hw]

theorem parseMembers_nl_spaces (f ind : Nat) (l : Str) :
    parseMembers f ('\n' :: (spaces ind ++ l)) = parseMembers f l := by
  have h := parseMembers_ws f (nlSpaces_ws ind) l
  simpa using h

theorem parseElems_nl_spaces (f ind : Nat) (l : Str) :
    parseElems f ('\n' :: (spaces ind ++ l)) = parseElems f l := by
  have h := parseElems_ws f (nlSpaces_ws ind) l
  simpa using h

theorem skipWs_nl_spaces' (n : Nat) (l : Str) :
    skipWs ('\n' :: (spaces n ++ l)) = skipWs l := by
  have h := skipWs_append_ws (nlSpaces_ws n) l
  simpa using h

theorem pm_step_str (f ind : Nat) (k : Str) (hk1 : '"' ∉ k) (hk2 : '\\' ∉ k)
    (s : Str) (hs1 : '"' ∉ s) (hs2 : '\\' ∉ s)
    (tail rest : Str) (kvs : List (Str × JsVal))
    (hrec : parseMembers (f + 1) tail = some (kvs, rest)) :
    parseMembers (f + 2)
        ('"' :: (k ++ '"' :: ':' :: ' ' :: '"' ::
          (s ++ '"' :: ',' :: '\n' :: (spaces ind ++ tail))))
      = some ((k, .str s) :: kvs, rest) := by
  show parseMembers ((f + 1) + 1) _ = _
  rw [parseMembers]
  rw [skipWs_cons_of_not '"' (by decide)]
  simp only [show ('"' == '"') = true from rfl, if_true]
  rw [parseStrBody_clean k _ hk1 hk2]
  dsimp only
  rw [skipWs_cons_of_not ':' (by decide)]
  simp only [show (':' == ':') = true from rfl, if_true]
  rw [pv_str_sp f s hs1 hs2 (',' :: '\n' :: (spaces ind ++ tail))]
  dsimp only
  rw [skipWs_cons_of_not ',' (by decide)]
  simp only [show (',' == ',') = true from rfl, if_true]
  rw [parseMembers_nl_spaces (f + 1) ind tail, hrec]

theorem pm_step_nat (f ind : Nat) (k : Str) (hk1 : '"' ∉ k) (hk2 : '\\' ∉ k)
    (n : Nat) (tail rest : Str) (kvs : List (Str × JsVal))
    (hrec : parseMembers (f + 1) tail = some (kvs, rest)) :
    parseMembers (f + 2)
        ('"' :: (k ++ '"' :: ':' :: ' ' ::
          (natChars n ++ ',' :: '\n' :: (spaces ind ++ tail))))
      = some ((k, .num (n : Int)) :: kvs, rest) := by
  show parseMembers ((f + 1) + 1) _ = _
  rw [parseMembers]
  rw [skipWs_cons_of_not '"' (by decide)]
  simp only [show ('"' == '"') = true from rfl, if_true]
  rw [parseStrBody_clean k _ hk1 hk2]
  dsimp only
  rw [skipWs_cons_of_not ':' (by decide)]
  simp only [show (':' == ':') = true from rfl, if_true]
  rw [pv_nat_sp f n (',' :: '\n' :: (spaces ind ++ tail)) rfl]
  dsimp only
  rw [skipWs_cons_of_not ',' (by decide)]
  simp only [show (',' == ',') = true from rfl, if_true]
  rw [parseMembers_nl_spaces (f + 1) ind tail, hrec]

theorem pm_last_nat (f ind0 : Nat) (k : Str) (hk1 : '"' ∉ k) (hk2 : '\\' ∉ k)
    (n : Nat) (rest : Str) :
    parseMembers (f + 2)
        ('"' :: (k ++ '"' :: ':' :: ' ' ::
          (natChars n ++ '\n' :: (spaces ind0 ++ '}' :: rest))))
      = some ([(k, .num (n : Int))], rest) := by
  show parseMembers ((f + 1) + 1) _ = _
  rw [parseMembers]
  rw [skipWs_cons_of_not '"' (by decide)]
  simp only [show ('"' == '"') = true from rfl, if_true]
  rw [parseStrBody_clean k _ hk1 hk2]
  dsimp only
  rw [skipWs_cons_of_not ':' (by decide)]
  simp only [show (':' == ':') = true from rfl, if_true]
  rw [pv_nat_sp f n ('\n' :: (spaces ind0 ++ '}' :: rest)) rfl]
  dsimp only
  rw [skipWs_nl_spaces' ind0, skipWs_cons_of_not '}' (by decide)]
  simp only [show ('}' == ',') = false from rfl, Bool.false_eq_true, if_false,
    show ('}' == '}') = true from rfl, if_true]

theorem parseVal_recordObj (f ind : Nat) (r : Record) (rest : Str)
    (hd : isIsoDate r.date = true) :
    parseVal (f + 10) (recordObjText ind r ++ rest)
      = some (recordToJs r, rest) := by
  have h8 := pm_last_nat f ind ("clones_uniques".data) (by decide) (by decide)
    r.clones_uniques rest
  have h7 := pm_step_nat (f + 1) (ind + 2) ("clones_count".data) (by decide)
    (by decide) r.clones_count _ _ _ h8
  have h6 := pm_step_nat (f + 2) (ind + 2) ("traffic_uniques".data) (by decide)
    (by decide) r.traffic_uniques _ _ _ h7
  have h5 := pm_step_nat (f + 3) (ind + 2) ("traffic_views".data) (by decide)
    (by decide) r.traffic_views _ _ _ h6
  have h4 := pm_step_nat (f + 4) (ind + 2) ("contributors".data) (by decide)
    (by decide) r.contributors _ _ _ h5
  have h3 := pm_step_nat (f + 5) (ind + 2) ("commits".data) (by decide)
    (by decide) r.commits _ _ _ h4
  have h2 := pm_step_nat (f + 6) (ind + 2) ("stargazers".data) (by decide)
    (by decide) r.stargazers _ _ _ h3
  have h1 := pm_step_str (f + 7) (ind + 2) ("date".data) (by decide)
    (by decide) r.date (isoDate_not_quote hd) (isoDate_not_backslash hd)
    _ _ _ h2
  rw [show f + 7 + 2 = f + 9 by omega] at h1
  show parseVal ((f + 9) + 1) _ = _
  simp only [recordObjText, keyText, sepText, List.cons_append,
    List.append_assoc, List.nil_append]
  rw [parseVal]
  rw [skipWs_cons_of_not '{' (by decide)]
  simp only [show ('{' == '"') = false from rfl, Bool.false_eq_true, if_false,
    show ('{' == '[') = false from rfl, show ('{' == '{') = true from rfl,
    if_true]
  rw [skipWs_nl_spaces' (ind + 2)]
  rw [skipWs_cons_of_not '"' (by decide)]
  simp only [show ('"' == '}') = false from rfl, Bool.false_eq_true, if_false]
  simp only [List.cons_append, List.append_assoc, List.nil_append] at h1
  rw [h1]
  simp [recordToJs]

theorem parseElems_dataset (rs : List Record) :
    ∀ (r : Record) (P ind : Nat) (w rest : Str),
    isIsoDate r.date = true → isoDataset rs → (∀ c ∈ w, isWsChar c = true) →
    parseElems (P + (rs.length + 11))
        (recordObjText ind r ++ (datasetElemsText ind rs ++ (w ++ ']' :: rest)))
      = some ((r :: rs).map recordToJs, rest) := by
  induction rs with
  | nil =>
    intro r P ind w rest hr _ hw
    simp only [datasetElemsText, List.nil_append, List.length_nil]
    rw [show P + (0 + 11) = (P + 10) + 1 by omega]
    rw [parseElems]
    rw [parseVal_recordObj P ind r (w ++ ']' :: rest) hr]
    dsimp only
    rw [skipWs_append_ws hw, skipWs_cons_of_not ']' (by decide)]
    simp only [show (']' == ',') = false from rfl, Bool.false_eq_true, if_false,
      show (']' == ']') = true from rfl, if_true, List.map_cons, List.map_nil]
  | cons r2 rs ih =>
    intro r P ind w rest hr hiso hw
    simp only [datasetElemsText, List.length_cons, List.cons_append,
      List.append_assoc, List.nil_append, sepText]
    rw [show P + (rs.length + 1 + 11) = (P + (rs.length + 11)) + 1 by omega]
    rw [parseElems]
    rw [show P + (rs.length + 11) = (P + rs.length + 1) + 10 by omega]
    rw [parseVal_recordObj (P + rs.length + 1) ind r _ hr]
    dsimp only
    rw [skipWs_cons_of_not ',' (by decide)]
    simp only [show (',' == ',') = true from rfl, if_true]
    rw [parseElems_nl_spaces _ ind _]
    have hE := ih r2 P ind w rest (hiso r2 (by simp))
      (fun a ha => hiso a (by simp [ha])) hw
    rw [show (P + rs.length + 1) + 10 = P + (rs.length + 11) by omega]
    rw [hE]
    simp

theorem recordObjText_length_ge (ind : Nat) (r : Record) :
    (recordObjText ind r).length ≥ 12 := by
  simp [recordObjText, keyText, sepText]
  omega

theorem datasetElemsText_length_ge (ind : Nat) (rs : List Record) :
    (datasetElemsText ind rs).length ≥ rs.length := by
  induction rs with
  | nil => simp [datasetElemsText]
  | cons r rs ih =>
    simp only [datasetElemsText, sepText, List.length_append, List.length_cons]
    omega

theorem parseJson_datasetText (recs : List Record) (hiso : isoDataset recs) :
    parseJson (datasetText recs) = some (.arr (recs.map recordToJs)) := by
  cases recs with
  | nil => rfl
  | cons r rs =>
    have hr : isIsoDate r.date = true := hiso r (by simp)
    have hiso' : isoDataset rs := fun a ha => hiso a (by simp [ha])
    have hobj := recordObjText_length_ge 2 r
    have helems := datasetElemsText_length_ge 2 rs
    have hlen : (datasetText (r :: rs)).length ≥ rs.length + 12 := by
      simp only [datasetText, List.length_append, List.length_cons]
      omega
    obtain ⟨P, hP⟩ : ∃ P, (datasetText (r :: rs)).length = P + (rs.length + 11) :=
      ⟨(datasetText (r :: rs)).length - (rs.length + 11), by omega⟩
    rw [parseJson, hP]
    have hE := parseElems_dataset rs r P 2 ['\n'] [] hr hiso'
      (by intro c hc; simp at hc; subst hc; decide)
    simp only [recordObjText, keyText, sepText, List.cons_append,
      List.append_assoc, List.nil_append, List.singleton_append] at hE
    rw [parseVal]
    simp only [datasetText, recordObjText, keyText, sepText, List.cons_append,
      List.append_assoc, List.nil_append]
    rw [skipWs_cons_of_not '[' (by decide)]
    simp only [show ('[' == '"') = false from rfl, Bool.false_eq_true, if_false,
      show ('[' == '[') = true from rfl, if_true]
    rw [skipWs_nl_spaces' 2]
    rw [skipWs_cons_of_not '{' (by decide)]
    simp only [show ('{' == ']') = false from rfl, Bool.false_eq_true, if_false]
    rw [hE]
    rfl

/-! ## CSV round trip -/

theorem splitNl_no_nl {l : Str} (h : '\n' ∉ l) : splitNl l = [l] := by
  induction l with
  | nil => rfl
  | cons c cs ih =>
    have hc : (c == '\n') = false := by
      simp only [beq_eq_false_iff_ne]
      exact fun e => h (by simp [e])
    simp only [splitNl, hc, Bool.false_eq_true, if_false]
    rw [ih (fun hx => h (by simp [hx]))]

theorem splitNl_append {a : Str} (t : Str) (h : '\n' ∉ a) :
    splitNl (a ++ '\n' :: t) = a :: splitNl t := by
  induction a with
  | nil => simp [splitNl]
  | cons c cs ih =>
    have hc : (c == '\n') = false := by
      simp only [beq_eq_false_iff_ne]
      exact fun e => h (by simp [e])
    simp only [List.cons_append, splitNl, hc, Bool.false_eq_true, if_false,
      List.append_eq]
    rw [ih (fun hx => h (by simp [hx]))]

theorem splitNl_joinNl (lines : List Str) (hne : lines ≠ [])
    (h : ∀ l ∈ lines, '\n' ∉ l) : splitNl (joinNl lines) = lines := by
  induction lines with
  | nil => cases hne rfl
  | cons a ls ih =>
    cases ls with
    | nil => exact splitNl_no_nl (h a (by simp))
    | cons b t =>
      have hj : joinNl (a :: b :: t) = a ++ '\n' :: joinNl (b :: t) := rfl
      rw [hj, splitNl_append _ (h a (by simp)),
        ih (by simp) (fun l hl => h l (by simp [hl]))]

theorem natChars_no_nl (n : Nat) : '\n' ∉ natChars n := by
  intro hx
  have := natCharsAux_all_digits (n + 1) n '\n' hx
  simp [Char.isDigit] at this

theorem csvLine_chars_ne_nl {r : Record} (h : isIsoDate r.date = true) :
    ∀ c ∈ csvLine r, c ≠ '\n' := by
  have hd : ∀ c ∈ r.date, c ≠ '\n' :=
    fun c hcc e => isoDate_not_nl h (e ▸ hcc)
  have hn : ∀ (m : Nat), ∀ c ∈ natChars m, c ≠ '\n' :=
    fun m c hcc e => natChars_no_nl m (e ▸ hcc)
  simp only [csvLine, List.forall_mem_append, List.forall_mem_cons]
  repeat' apply And.intro
  all_goals first | exact hd | decide | exact hn _

theorem csvLine_no_nl {r : Record} (h : isIsoDate r.date = true) :
    '\n' ∉ csvLine r :=
  fun hc => csvLine_chars_ne_nl h '\n' hc rfl

theorem isoDate_shape {d : Str} (h : isIsoDate d = true) :
    ∃ c t, d = c :: t ∧ c.isDigit = true := by
  unfold isIsoDate at h
  split at h
  case _ y1 y2 y3 y4 s1 m1 m2 s2 d1 d2 =>
    simp only [Bool.and_eq_true] at h
    exact ⟨y1, _, rfl, h.1.1.1.1.1.1.1.1.1⟩
  · simp at h

theorem csvLine_not_blank {r : Record} (h : isIsoDate r.date = true) :
    isBlankLine (csvLine r) = false := by
  obtain ⟨c, t, hct, hdig⟩ := isoDate_shape h
  simp only [csvLine, hct, List.cons_append, isBlankLine, List.all_cons,
    isWsChar_false_of_isDigit hdig, Bool.false_and]

theorem csv_round_trip_aux (recs : List Record) (hiso : isoDataset recs) :
    csvLinesOf (joinNl (csvHeaderStr :: recs.map csvLine))
      = csvHeaderStr :: recs.map csvLine := by
  have hnl : ∀ l ∈ csvHeaderStr :: recs.map csvLine, '\n' ∉ l := by
    intro l hl
    simp only [List.mem_cons, List.mem_map] at hl
    rcases hl with rfl | ⟨a, ha, rfl⟩
    · decide
    · exact csvLine_no_nl (hiso a ha)
  have hnb : ∀ l ∈ csvHeaderStr :: recs.map csvLine, isBlankLine l = false := by
    intro l hl
    simp only [List.mem_cons, List.mem_map] at hl
    rcases hl with rfl | ⟨a, ha, rfl⟩
    · decide
    · exact csvLine_not_blank (hiso a ha)
  rw [csvLinesOf, splitNl_joinNl _ (by simp) hnl]
  rw [List.filter_eq_self.mpr (by intro a ha; simp [hnb a ha])]

/-! ## Claim C7 -/

/-- C7: serialization round-trip.  For every well-formed dataset (all
dates calendar dates), decoding the encoding yields the dataset again in
both formats: the modelled `JSON.parse` recovers the exact value that
`JSON.stringify(·, null, 2)` printed, and splitting the joined CSV lines
(dropping blank lines) recovers the header and data lines. -/
theorem claim_C7_round_trip (recs : List Record) (hiso : isoDataset recs) :
    parseJson (stringifyJson (.arr (recs.map recordToJs)))
        = some (.arr (recs.map recordToJs))
      ∧ csvLinesOf (joinNl (csvHeaderStr :: recs.map csvLine))
          = csvHeaderStr :: recs.map csvLine := by
  constructor
  · rw [stringify_dataset recs, parseJson_datasetText recs hiso]
  · exact csv_round_trip_aux recs hiso

/-- Witness for C7 at a concrete two-record dataset. -/
theorem claim_C7_round_trip_witness :
    parseJson (stringifyJson (.arr ([sampleRec1, sampleRec2].map recordToJs)))
        = some (.arr ([sampleRec1, sampleRec2].map recordToJs))
      ∧ csvLinesOf (joinNl (csvHeaderStr :: [sampleRec1, sampleRec2].map csvLine))
          = csvHeaderStr :: [sampleRec1, sampleRec2].map csvLine :=
  claim_C7_round_trip [sampleRec1, sampleRec2]
    (by intro a ha; simp at ha; rcases ha with rfl | rfl <;> decide)
